import Mathlib

/-!
Verification of the kdp-auditor-backend estimation core against its
specification.  The Python services are shallowly embedded: Python ints
become `ℕ`/`ℤ`, Python floats become real numbers (idealized real
arithmetic), rationals are used where every value reached is rational,
and the random draws of the keyword scorer are made explicit parameters.
-/

namespace KdpAuditor

/-! ### Embedding of src/services/keyword_service.py -/

/-- Python `int()` applied to a rational: truncation toward zero. -/
def pyInt (q : ℚ) : ℤ := if q < 0 then -Int.floor (-q) else Int.floor q

/-- Python's `needle in haystack` substring test, on character lists. -/
def isSubstring (needle haystack : List Char) : Bool :=
  (List.range (haystack.length + 1)).any
    (fun i => (haystack.drop i).take needle.length == needle)

/-- Splitter behind Python's argumentless `str.split`: cut at spaces and
drop empty pieces.  `cur` accumulates the current word reversed. -/
def splitWordsAux : List Char → List Char → List (List Char)
  | [], cur => if cur.isEmpty then [] else [cur.reverse]
  | c :: cs, cur =>
    if c = ' ' then
      if cur.isEmpty then splitWordsAux cs []
      else cur.reverse :: splitWordsAux cs []
    else splitWordsAux cs (c :: cur)

/-- `len(keyword.split())`: number of whitespace-separated words
(space-separated in this model). -/
def wordCount (s : String) : ℕ := (splitWordsAux s.data []).length

/-- ASCII lowercasing of one character, as `str.lower` does on the
ASCII keywords this service handles. -/
def charLower (c : Char) : Char :=
  if 'A' ≤ c ∧ c ≤ 'Z' then Char.ofNat (c.toNat + 32) else c

/-- The fixed common-word list of `_estimate_search_volume` (line 270). -/
def common_words : List String := ["book", "guide", "how", "best", "top", "learn"]

/-- `word in keyword.lower()` for one candidate common word. -/
def containsCommon (keyword w : String) : Bool :=
  isSubstring w.data (keyword.data.map charLower)

/-- `_estimate_search_volume` (lines 255-281), with the
`random.uniform(0.5, 2.0)` draw made an explicit parameter `j`. -/
def estimate_search_volume (keyword : String) (j : ℚ) : ℤ :=
  let base_volume : ℚ := 1000
  let length_factor : ℚ := max 0.1 (1.0 - (((wordCount keyword : ℤ) : ℚ) - 1) * 0.2)
  let common_factor : ℚ :=
    common_words.foldl (fun acc w => if containsCommon keyword w then acc * 1.5 else acc) 1.0
  let estimated_volume : ℤ := pyInt (base_volume * length_factor * common_factor)
  let jittered : ℤ := pyInt ((estimated_volume : ℚ) * j)
  max 10 jittered

/-- `_is_data_fresh` (lines 333-341).  Timestamps are integer seconds and
`datetime.utcnow()` is the explicit parameter `now`; a missing
`last_updated` is `none`.  `timedelta.days` floors the difference, hence
`Int.fdiv` by 86400. -/
def is_data_fresh (now : ℤ) (last_updated : Option ℤ) (max_age_days : ℤ) : Bool :=
  match last_updated with
  | none => false
  | some t => decide (Int.fdiv (now - t) 86400 < max_age_days)

/-! ### Embedding of src/services/bsr_calculator.py

Ranks are nonnegative integers (every call site passes a nonnegative
rank, and the code's `bsr <= 0` guard is kept verbatim); Python float
arithmetic is idealized as real arithmetic.  The calibration tables are
stored with rational sales values (all literals in the source are
decimal) and cast to `ℝ` where the code computes. -/

def usEbook : List (ℕ × ℚ) :=
  [(1, 5000), (10, 1500), (100, 300), (1000, 50), (10000, 8), (100000, 1), (1000000, 0.1)]

def usPaperback : List (ℕ × ℚ) :=
  [(1, 2000), (10, 600), (100, 120), (1000, 20), (10000, 3), (100000, 0.5), (1000000, 0.05)]

def usHardcover : List (ℕ × ℚ) :=
  [(1, 1000), (10, 300), (100, 60), (1000, 10), (10000, 1.5), (100000, 0.25), (1000000, 0.025)]

def ukEbook : List (ℕ × ℚ) :=
  [(1, 1500), (10, 450), (100, 90), (1000, 15), (10000, 2.4), (100000, 0.3), (1000000, 0.03)]

def ukPaperback : List (ℕ × ℚ) :=
  [(1, 600), (10, 180), (100, 36), (1000, 6), (10000, 0.9), (100000, 0.15), (1000000, 0.015)]

def ukHardcover : List (ℕ × ℚ) :=
  [(1, 300), (10, 90), (100, 18), (1000, 3), (10000, 0.45), (100000, 0.075), (1000000, 0.0075)]

def amazonComTables : List (String × List (ℕ × ℚ)) :=
  [("ebook", usEbook), ("paperback", usPaperback), ("hardcover", usHardcover)]

def amazonCoUkTables : List (String × List (ℕ × ℚ)) :=
  [("ebook", ukEbook), ("paperback", ukPaperback), ("hardcover", ukHardcover)]

/-- `self.conversion_tables` (lines 15-75); association lists model the
Python dicts (keys are distinct, and the code only reads them). -/
def conversion_tables : List (String × List (String × List (ℕ × ℚ))) :=
  [("amazon.com", amazonComTables), ("amazon.co.uk", amazonCoUkTables)]

/-- `self.conversion_tables.get(marketplace, self.conversion_tables['amazon.com'])`. -/
def lookupMarket (marketplace : String) : List (String × List (ℕ × ℚ)) :=
  match conversion_tables.find? (fun p => p.1 = marketplace) with
  | some p => p.2
  | none => amazonComTables

/-- `marketplace_table.get(book_type, marketplace_table['ebook'])`; the
inner `none` case is the `KeyError` path, unreachable for the concrete
tables above (each has an "ebook" entry). -/
def lookupBookTable (mt : List (String × List (ℕ × ℚ))) (book_type : String) :
    List (ℕ × ℚ) :=
  match mt.find? (fun p => p.1 = book_type) with
  | some p => p.2
  | none =>
    match mt.find? (fun p => p.1 = "ebook") with
    | some p => p.2
    | none => []

def lookupTable (marketplace book_type : String) : List (ℕ × ℚ) :=
  lookupBookTable (lookupMarket marketplace) book_type

noncomputable section
open Real

/-- `math.log10`. -/
noncomputable def log10 (x : ℝ) : ℝ := Real.logb 10 x

/-- One log-log interpolation bracket of `_interpolate_sales`
(lines 130-148): log-space ratio, sales floored at 0.001 before the
logarithm, result exponentiated back. -/
noncomputable def piece (bsr lo hi : ℕ) (lower_sales upper_sales : ℝ) : ℝ :=
  let ratio := (log10 bsr - log10 lo) / (log10 hi - log10 lo)
  let log_lower_sales := log10 (max lower_sales 0.001)
  let log_upper_sales := log10 (max upper_sales 0.001)
  (10 : ℝ) ^ (log_lower_sales + ratio * (log_upper_sales - log_lower_sales))

/-- The bracket-scanning loop of `_interpolate_sales` (lines 126-150):
the first adjacent pair `(lo, hi)` with `lo <= bsr <= hi` interpolates;
if no bracket matches the loop falls through to `return 0.0`. -/
noncomputable def interpolateSalesAux (bsr : ℕ) : List (ℕ × ℚ) → ℝ
  | (lo, lower_sales) :: (hi, upper_sales) :: rest =>
    if lo ≤ bsr ∧ bsr ≤ hi then piece bsr lo hi (lower_sales : ℝ) (upper_sales : ℝ)
    else interpolateSalesAux bsr ((hi, upper_sales) :: rest)
  | _ => 0

/-- `_extrapolate_high_performance` (lines 152-158). -/
noncomputable def extrapolate_high_performance (bsr known_bsr : ℕ) (known_sales : ℝ) : ℝ :=
  known_sales * (((known_bsr : ℝ) / (bsr : ℝ)) ^ (0.7 : ℝ))

/-- `_extrapolate_low_performance` (lines 160-166). -/
noncomputable def extrapolate_low_performance (bsr known_bsr : ℕ) (known_sales : ℝ) : ℝ :=
  known_sales / (((bsr : ℝ) / (known_bsr : ℝ)) ^ (0.8 : ℝ))

/-- `_interpolate_sales` (lines 107-150).  The table is kept sorted by
rank (the code sorts the dict keys; the embedded tables are written in
that order), so `first`/`getLastD` are `bsr_points[0]`/`bsr_points[-1]`.
The empty-table case stands for the `IndexError` path that the caller's
`except` turns into 0.0. -/
noncomputable def interpolate_sales (bsr : ℕ) (conversion_table : List (ℕ × ℚ)) : ℝ :=
  if bsr ≤ 0 then 0
  else
    match conversion_table with
    | [] => 0
    | first :: rest =>
      let lastP := (first :: rest).getLastD (0, 0)
      if bsr < first.1 then extrapolate_high_performance bsr first.1 (first.2 : ℝ)
      else if lastP.1 < bsr then extrapolate_low_performance bsr lastP.1 (lastP.2 : ℝ)
      else interpolateSalesAux bsr (first :: rest)

/-- Python `round(x, 2)` idealized over the reals (round-half-up at the
second decimal). -/
noncomputable def round2 (x : ℝ) : ℝ := ((round (x * 100) : ℤ) : ℝ) / 100

/-- `calculate_sales_estimates` (lines 77-105): daily from interpolation,
monthly = daily * 30, both rounded to 2 decimals in the returned pair. -/
noncomputable def calculate_sales_estimates (bsr : ℕ) (book_type marketplace : String) :
    ℝ × ℝ :=
  let daily_sales := interpolate_sales bsr (lookupTable marketplace book_type)
  (round2 daily_sales, round2 (daily_sales * 30))

/-- One BSR history record as consumed by `get_sales_trend_analysis`;
`book_type`/`marketplace` carry the record's `.get(...)` defaults. -/
structure BsrRecord where
  rank : ℕ
  timestamp : ℕ
  book_type : String
  marketplace : String

/-- The dictionary returned by `get_sales_trend_analysis` (the
`insufficient_data` return carries only `trend`; the numeric fields are
then irrelevant and set to 0 here). -/
structure TrendAnalysis where
  trend : String
  current_daily_sales : ℝ
  average_daily_sales : ℝ
  best_daily_sales : ℝ
  worst_daily_sales : ℝ
  change_percent : ℝ

/-- `sorted(bsr_history, key=lambda x: x['timestamp'])`: Python's sort is
stable, as is insertion sort with `≤`. -/
def sortedHistory (bsr_history : List BsrRecord) : List BsrRecord :=
  bsr_history.insertionSort (fun a b => a.timestamp ≤ b.timestamp)

/-- The daily-sales series of the sorted history (lines 221-228). -/
noncomputable def salesData (bsr_history : List BsrRecord) : List ℝ :=
  (sortedHistory bsr_history).map
    (fun r => (calculate_sales_estimates r.rank r.book_type r.marketplace).1)

/-- Python `max(list)` on a nonempty list (0 on the unreachable empty one). -/
noncomputable def listMax : List ℝ → ℝ
  | [] => 0
  | x :: xs => xs.foldl max x

/-- Python `min(list)` on a nonempty list. -/
noncomputable def listMin : List ℝ → ℝ
  | [] => 0
  | x :: xs => xs.foldl min x

/-- The `recent_avg` local of `get_sales_trend_analysis` (line 232):
mean of the last 3 daily-sales values. -/
noncomputable def trend_recent_avg (sales_data : List ℝ) : ℝ :=
  (sales_data.drop (sales_data.length - 3)).sum / 3

/-- The `older_avg` local (line 233): mean of all points before the last
3, or the single first point when exactly 3 exist. -/
noncomputable def trend_older_avg (sales_data : List ℝ) : ℝ :=
  if 3 < sales_data.length then
    (sales_data.take (sales_data.length - 3)).sum / ((sales_data.length - 3 : ℕ) : ℝ)
  else sales_data.headD 0

/-- The `change_percent` local: computed in the 3-or-more branch
(lines 231-235), reported as 0 otherwise (line 258,
`'change_percent' in locals()` is false in the 2-point branch). -/
noncomputable def trend_change_percent (sales_data : List ℝ) : ℝ :=
  if 3 ≤ sales_data.length then
    if 0 < trend_older_avg sales_data then
      (trend_recent_avg sales_data - trend_older_avg sales_data)
        / trend_older_avg sales_data * 100
    else 0
  else 0

/-- The `trend` local of `get_sales_trend_analysis` (lines 231-250):
threshold classification on `change_percent` with 3 or more points,
direct comparison of newest against oldest with fewer. -/
noncomputable def trend_label (sales_data : List ℝ) : String :=
  if 3 ≤ sales_data.length then
    if 10 < trend_change_percent sales_data then "improving"
    else if trend_change_percent sales_data < -10 then "declining"
    else "stable"
  else
    if sales_data.headD 0 < sales_data.getLastD 0 then "improving"
    else if sales_data.getLastD 0 < sales_data.headD 0 then "declining"
    else "stable"

/-- `get_sales_trend_analysis` (lines 204-259). -/
noncomputable def get_sales_trend_analysis (bsr_history : List BsrRecord) : TrendAnalysis :=
  if bsr_history.length < 2 then ⟨"insufficient_data", 0, 0, 0, 0, 0⟩
  else
    ⟨trend_label (salesData bsr_history),
      (salesData bsr_history).getLastD 0,
      (salesData bsr_history).sum / ((salesData bsr_history).length : ℝ),
      listMax (salesData bsr_history), listMin (salesData bsr_history),
      trend_change_percent (salesData bsr_history)⟩

/-- The spec's trend example (§8): ranks [50000, 30000, 10000] at
increasing timestamps, ebook on amazon.com. -/
def exampleRisingHistory : List BsrRecord :=
  [⟨50000, 1, "ebook", "amazon.com"⟩, ⟨30000, 2, "ebook", "amazon.com"⟩,
    ⟨10000, 3, "ebook", "amazon.com"⟩]

/-- A two-point history whose two daily estimates (0.5 then 0.45) differ
by exactly -10%. -/
def exampleTwoPointHistory : List BsrRecord :=
  [⟨100000, 1, "paperback", "amazon.com"⟩, ⟨10000, 2, "hardcover", "amazon.co.uk"⟩]

open scoped Classical in
/-- The binary-search loop of `get_bsr_for_target_sales` (lines 185-198):
while `high - low > 1`, probe the midpoint; raise `low` when the estimate
still exceeds the target, else lower `high`; return `low`. -/
noncomputable def bsearch (est : ℕ → ℝ) (target : ℝ) (low_bsr high_bsr : ℕ) : ℕ :=
  if _h : high_bsr - low_bsr ≤ 1 then low_bsr
  else if target < est ((low_bsr + high_bsr) / 2) then
    bsearch est target ((low_bsr + high_bsr) / 2) high_bsr
  else
    bsearch est target low_bsr ((low_bsr + high_bsr) / 2)
termination_by high_bsr - low_bsr
decreasing_by all_goals omega

/-- `get_bsr_for_target_sales` (lines 168-202): binary search on
`_interpolate_sales` over `[1, 10_000_000]`. -/
noncomputable def get_bsr_for_target_sales (target_daily_sales : ℝ)
    (book_type marketplace : String) : ℕ :=
  bsearch (fun mid => interpolate_sales mid (lookupTable marketplace book_type))
    target_daily_sales 1 10000000

end

/-- Between two consecutive anchors: ranks strictly increase, sales
weakly decrease. -/
def tableOrd (p q : ℕ × ℚ) : Prop := p.1 < q.1 ∧ q.2 ≤ p.2

/-- The last anchor pair of a table (`bsr_points[-1]`). -/
def lastAnchor (t : List (ℕ × ℚ)) : ℕ × ℚ := t.getLastD (0, 0)

/-- Well-formedness of a calibration table, as the spec's data-model
invariants state it: at least two anchors, anchors positive and strictly
increasing, sales values weakly decreasing and at least the 0.001 floor
used before logarithms.  Every concrete table above satisfies it. -/
def tableWF (t : List (ℕ × ℚ)) : Prop :=
  2 ≤ t.length ∧ (∀ p ∈ t, 1 ≤ p.1 ∧ (1/1000 : ℚ) ≤ p.2) ∧ List.Chain' tableOrd t

/-! ### Theorems for claims C8, C9, C10 -/

/-- C8: for every timestamp `last_updated` and window `max_age_days`,
`is_fresh` returns true iff `now - last_updated` is less than
`max_age_days` whole days; in particular `is_fresh (now - 1 day)` is true
and `is_fresh (now - 8 days)` is false under the default 7-day window. -/
theorem is_data_fresh_characterization :
    (∀ now t m : ℤ, is_data_fresh now (some t) m = true ↔ now - t < m * 86400)
    ∧ (∀ now : ℤ, is_data_fresh now (some (now - 86400)) 7 = true)
    ∧ (∀ now : ℤ, is_data_fresh now (some (now - 8 * 86400)) 7 = false) := by
  have key : ∀ now t m : ℤ, is_data_fresh now (some t) m = true ↔ now - t < m * 86400 := by
    intro now t m
    simp only [is_data_fresh, decide_eq_true_eq]
    rw [Int.fdiv_eq_ediv _ (by norm_num)]
    omega
  refine ⟨key, fun now => ?_, fun now => ?_⟩
  · rw [key]; omega
  · rw [Bool.eq_false_iff]
    intro h
    rw [key] at h
    omega

/-- C10: a record with no `last_updated` timestamp is never fresh, for
every window: the predicate returns `false` rather than raising or
treating it as fresh. -/
theorem is_data_fresh_none_stale :
    ∀ now m : ℤ, is_data_fresh now none m = false := fun _ _ => rfl

lemma foldl_common_factor (kw : String) (l : List String) (a : ℚ) :
    l.foldl (fun acc w => if containsCommon kw w then acc * 1.5 else acc) a
      = a * (1.5 : ℚ) ^ (l.filter (fun w => containsCommon kw w)).length := by
  induction l generalizing a with
  | nil => simp
  | cons w l ih =>
    by_cases h : containsCommon kw w
    · simp only [List.foldl_cons, h, if_true, ih, List.filter_cons, List.length_cons, pow_succ]
      ring
    · simp [h, ih]

lemma pyInt_eq_floor {q : ℚ} (h : 0 ≤ q) : pyInt q = Int.floor q := by
  rw [pyInt, if_neg (not_lt.mpr h)]

lemma foldl_common_factor_one (kw : String) :
    common_words.foldl (fun acc w => if containsCommon kw w then acc * 1.5 else acc) 1.0
      = (1.5 : ℚ) ^ (common_words.filter (fun w => containsCommon kw w)).length := by
  rw [foldl_common_factor]
  norm_num

/-- C9 (amended): the volume estimate is
`max 10 (int(int(1000 * length_factor * 1.5 ^ k) * j))` where `k` counts
the common words contained (each at most once, substring containment),
and `int` truncates; for `0 ≤ j` truncation is flooring. -/
theorem search_volume_formula (kw : String) (j : ℚ) (hj : 0 ≤ j) :
    estimate_search_volume kw j =
      max 10 ⌊(⌊(1000 : ℚ) * max 0.1 (1.0 - (((wordCount kw : ℤ) : ℚ) - 1) * 0.2)
          * (1.5 : ℚ) ^ (common_words.filter (fun w => containsCommon kw w)).length⌋ : ℚ) * j⌋ := by
  have hlf : (0 : ℚ) ≤ max 0.1 (1.0 - (((wordCount kw : ℤ) : ℚ) - 1) * 0.2) :=
    le_trans (by norm_num) (le_max_left _ _)
  have hbase : (0 : ℚ) ≤ (1000 : ℚ) * max 0.1 (1.0 - (((wordCount kw : ℤ) : ℚ) - 1) * 0.2)
      * (1.5 : ℚ) ^ (common_words.filter (fun w => containsCommon kw w)).length := by
    have := pow_nonneg (by norm_num : (0:ℚ) ≤ 1.5)
      (common_words.filter (fun w => containsCommon kw w)).length
    positivity
  rw [estimate_search_volume]
  rw [foldl_common_factor_one, pyInt_eq_floor hbase, pyInt_eq_floor]
  exact mul_nonneg (by exact_mod_cast Int.floor_nonneg.mpr hbase) hj

/-- Witness for `search_volume_formula` at the keyword "book", jitter 1. -/
theorem search_volume_formula_witness :
    estimate_search_volume "book" 1 =
      max 10 ⌊(⌊(1000 : ℚ) * max 0.1 (1.0 - (((wordCount "book" : ℤ) : ℚ) - 1) * 0.2)
          * (1.5 : ℚ) ^ (common_words.filter (fun w => containsCommon "book" w)).length⌋ : ℚ) * 1⌋ :=
  search_volume_formula "book" 1 (by norm_num)

/-- C9 counterexample: for keyword "hello world" (two words, no common
word) and jitter 2003/2000 the code returns 801, but the claimed formula
1000 * length_factor * common_factor * j evaluates to 801.2, so the two
are not equal: the claim omits the integer truncations. -/
theorem search_volume_counterexample :
    estimate_search_volume "hello world" (2003/2000) = 801
    ∧ (1000 : ℚ) * max 0.1 (1.0 - ((2 : ℚ) - 1) * 0.2) * 1 * (2003/2000) ≠ 801 := by
  constructor
  · have hw : wordCount "hello world" = 2 := by decide
    have h1 : containsCommon "hello world" "book" = false := by decide
    have h2 : containsCommon "hello world" "guide" = false := by decide
    have h3 : containsCommon "hello world" "how" = false := by decide
    have h4 : containsCommon "hello world" "best" = false := by decide
    have h5 : containsCommon "hello world" "top" = false := by decide
    have h6 : containsCommon "hello world" "learn" = false := by decide
    rw [estimate_search_volume]
    simp only [hw, common_words, List.foldl_cons, List.foldl_nil, h1, h2, h3, h4, h5, h6,
      if_false, Bool.false_eq_true]
    have hmax : max (0.1 : ℚ) (1.0 - ((((2 : ℕ) : ℤ) : ℚ) - 1) * 0.2) = 4/5 := by
      rw [max_eq_right] <;> norm_num
    rw [hmax]
    have hfl1 : pyInt ((1000 : ℚ) * (4/5) * 1.0) = 800 := by
      rw [pyInt_eq_floor (by norm_num), Int.floor_eq_iff]
      norm_num
    rw [hfl1]
    have hfl2 : pyInt (((800 : ℤ) : ℚ) * (2003/2000)) = 801 := by
      rw [pyInt_eq_floor (by norm_num), Int.floor_eq_iff]
      norm_num
    rw [hfl2, max_eq_right (by norm_num : (10 : ℤ) ≤ 801)]
  · norm_num

/-! ### Interpolation lemmas for the rank-demand model -/

lemma one_lt_ten : (1 : ℝ) < 10 := by norm_num

lemma ten_pos : (0 : ℝ) < 10 := by norm_num

lemma floored_pos (s : ℝ) : (0 : ℝ) < max s 0.001 :=
  lt_of_lt_of_le (by norm_num) (le_max_right _ _)

lemma log10_le_log10 {x y : ℝ} (hx : 0 < x) (hxy : x ≤ y) : log10 x ≤ log10 y :=
  Real.logb_le_logb_of_le one_lt_ten hx hxy

lemma log10_lt_log10 {x y : ℝ} (hx : 0 < x) (hxy : x < y) : log10 x < log10 y :=
  Real.logb_lt_logb one_lt_ten hx hxy

lemma rpow_log10 {x : ℝ} (hx : 0 < x) : (10 : ℝ) ^ log10 x = x :=
  Real.rpow_logb ten_pos (by norm_num) hx

lemma log10_denom_pos {lo hi : ℕ} (hlo : 1 ≤ lo) (hlohi : lo < hi) :
    0 < log10 (hi : ℝ) - log10 (lo : ℝ) := by
  have h0 : (0 : ℝ) < (lo : ℝ) := by exact_mod_cast Nat.lt_of_lt_of_le Nat.zero_lt_one hlo
  have h1 : (lo : ℝ) < (hi : ℝ) := by exact_mod_cast hlohi
  exact sub_pos.mpr (log10_lt_log10 h0 h1)

lemma piece_at_lo {lo hi : ℕ} (hlo : 1 ≤ lo) (hlohi : lo < hi) (sl su : ℝ) :
    piece lo lo hi sl su = max sl 0.001 := by
  have hD := log10_denom_pos hlo hlohi
  rw [piece]
  simp only [sub_self, zero_div, zero_mul, add_zero]
  exact rpow_log10 (floored_pos sl)

lemma piece_at_hi {lo hi : ℕ} (hlo : 1 ≤ lo) (hlohi : lo < hi) (sl su : ℝ) :
    piece hi lo hi sl su = max su 0.001 := by
  have hD := log10_denom_pos hlo hlohi
  rw [piece]
  simp only [div_self (ne_of_gt hD), one_mul, add_sub_cancel]
  exact rpow_log10 (floored_pos su)

lemma piece_anti {lo hi r1 r2 : ℕ} (hlo : 1 ≤ lo) (hlohi : lo < hi) {sl su : ℝ}
    (hsu : su ≤ sl) (h1 : lo ≤ r1) (h12 : r1 ≤ r2) :
    piece r2 lo hi sl su ≤ piece r1 lo hi sl su := by
  have hD := log10_denom_pos hlo hlohi
  have hr1pos : (0 : ℝ) < (r1 : ℝ) := by
    exact_mod_cast Nat.lt_of_lt_of_le Nat.zero_lt_one (le_trans hlo h1)
  have hnum : log10 (r1 : ℝ) ≤ log10 (r2 : ℝ) :=
    log10_le_log10 hr1pos (by exact_mod_cast h12)
  have hratio : (log10 (r1 : ℝ) - log10 (lo : ℝ)) / (log10 (hi : ℝ) - log10 (lo : ℝ))
      ≤ (log10 (r2 : ℝ) - log10 (lo : ℝ)) / (log10 (hi : ℝ) - log10 (lo : ℝ)) :=
    (div_le_div_iff_of_pos_right hD).mpr (by linarith)
  have hlog_vals : log10 (max su 0.001) ≤ log10 (max sl 0.001) :=
    log10_le_log10 (floored_pos su) (max_le_max hsu (le_refl _))
  have hexp : log10 (max sl 0.001)
        + (log10 (r2 : ℝ) - log10 (lo : ℝ)) / (log10 (hi : ℝ) - log10 (lo : ℝ))
          * (log10 (max su 0.001) - log10 (max sl 0.001))
      ≤ log10 (max sl 0.001)
        + (log10 (r1 : ℝ) - log10 (lo : ℝ)) / (log10 (hi : ℝ) - log10 (lo : ℝ))
          * (log10 (max su 0.001) - log10 (max sl 0.001)) := by
    have := mul_le_mul_of_nonpos_right hratio (sub_nonpos.mpr hlog_vals)
    linarith
  exact (Real.rpow_le_rpow_left_iff one_lt_ten).mpr hexp

lemma piece_pos (r lo hi : ℕ) (sl su : ℝ) : 0 < piece r lo hi sl su :=
  Real.rpow_pos_of_pos ten_pos _

lemma piece_le {lo hi r : ℕ} (hlo : 1 ≤ lo) (hlohi : lo < hi) {sl su : ℝ}
    (hsu : su ≤ sl) (h1 : lo ≤ r) :
    piece r lo hi sl su ≤ max sl 0.001 := by
  rw [← piece_at_lo hlo hlohi sl su]
  exact piece_anti hlo hlohi hsu (le_refl lo) h1

lemma piece_ge {lo hi r : ℕ} (hlo : 1 ≤ lo) (hlohi : lo < hi) {sl su : ℝ}
    (hsu : su ≤ sl) (h1 : lo ≤ r) (h2 : r ≤ hi) :
    max su 0.001 ≤ piece r lo hi sl su := by
  rw [← piece_at_hi hlo hlohi sl su]
  exact piece_anti hlo hlohi hsu h1 h2

lemma floored_eq {v : ℚ} (hv : (1/1000 : ℚ) ≤ v) : max ((v : ℚ) : ℝ) 0.001 = (v : ℝ) := by
  apply max_eq_left
  have h : ((1/1000 : ℚ) : ℝ) ≤ ((v : ℚ) : ℝ) := by exact_mod_cast hv
  calc (0.001 : ℝ) = ((1/1000 : ℚ) : ℝ) := by norm_num
  _ ≤ ((v : ℚ) : ℝ) := h

lemma chain_head_min {q : ℕ × ℚ} {l : List (ℕ × ℚ)} (h : List.Chain' tableOrd (q :: l))
    {p : ℕ × ℚ} (hp : p ∈ q :: l) : q.1 ≤ p.1 ∧ p.2 ≤ q.2 ∧ (p.1 = q.1 → p = q) := by
  induction l generalizing q with
  | nil =>
    rw [List.mem_singleton] at hp
    exact ⟨le_of_eq (congrArg Prod.fst hp).symm, le_of_eq (congrArg Prod.snd hp),
      fun _ => hp⟩
  | cons c l ih =>
    rcases List.mem_cons.mp hp with hpq | hpc
    · exact ⟨le_of_eq (congrArg Prod.fst hpq).symm, le_of_eq (congrArg Prod.snd hpq),
        fun _ => hpq⟩
    · have hqc : tableOrd q c := (List.chain'_cons.mp h).1
      have htail := (List.chain'_cons.mp h).2
      obtain ⟨h1, h2, _⟩ := ih htail hpc
      refine ⟨le_trans (le_of_lt hqc.1) h1, le_trans h2 hqc.2, fun he => absurd he ?_⟩
      exact ne_of_gt (lt_of_lt_of_le hqc.1 h1)

lemma lastAnchor_mem : ∀ (q : ℕ × ℚ) (l : List (ℕ × ℚ)), lastAnchor (q :: l) ∈ q :: l := by
  intro q l
  induction l generalizing q with
  | nil => exact List.mem_singleton.mpr rfl
  | cons c l ih =>
    rw [lastAnchor, List.getLastD_cons]
    exact List.mem_cons_of_mem q (ih c)

lemma lastAnchor_cons₂ (p q : ℕ × ℚ) (rest : List (ℕ × ℚ)) :
    lastAnchor (p :: q :: rest) = lastAnchor (q :: rest) := by
  simp [lastAnchor, List.getLastD_cons]

lemma interpAux_cons (r a : ℕ) (va : ℚ) (b : ℕ) (vb : ℚ) (rest : List (ℕ × ℚ)) :
    interpolateSalesAux r ((a, va) :: (b, vb) :: rest)
      = if a ≤ r ∧ r ≤ b then piece r a b (va : ℝ) (vb : ℝ)
        else interpolateSalesAux r ((b, vb) :: rest) := rfl

lemma interpAux_le_head {a : ℕ} {va : ℚ} {b : ℕ} {vb : ℚ} {rest : List (ℕ × ℚ)} {r : ℕ}
    (hpos : ∀ x ∈ (a, va) :: (b, vb) :: rest, 1 ≤ x.1)
    (hch : List.Chain' tableOrd ((a, va) :: (b, vb) :: rest))
    (hr1 : a ≤ r) (hr2 : r ≤ (lastAnchor ((a, va) :: (b, vb) :: rest)).1) :
    interpolateSalesAux r ((a, va) :: (b, vb) :: rest) ≤ max ((va : ℚ) : ℝ) 0.001 := by
  induction rest generalizing a va b vb with
  | nil =>
    have hab : tableOrd (a, va) (b, vb) := (List.chain'_cons.mp hch).1
    have ha : 1 ≤ a := hpos _ (List.mem_cons_self _ _)
    rw [lastAnchor_cons₂] at hr2
    simp only [lastAnchor, List.getLastD_cons] at hr2
    rw [interpAux_cons, if_pos ⟨hr1, hr2⟩]
    exact piece_le ha hab.1 (by exact_mod_cast hab.2) hr1
  | cons c rest ih =>
    obtain ⟨c1, c2⟩ := c
    have hab : tableOrd (a, va) (b, vb) := (List.chain'_cons.mp hch).1
    have ha : 1 ≤ a := hpos _ (List.mem_cons_self _ _)
    by_cases hb : r ≤ b
    · rw [interpAux_cons, if_pos ⟨hr1, hb⟩]
      exact piece_le ha hab.1 (by exact_mod_cast hab.2) hr1
    · rw [interpAux_cons, if_neg (fun hc => hb hc.2)]
      have htailpos : ∀ x ∈ (b, vb) :: (c1, c2) :: rest, 1 ≤ x.1 :=
        fun x hx => hpos x (List.mem_cons_of_mem _ hx)
      have htailch := (List.chain'_cons.mp hch).2
      have hr1' : b ≤ r := le_of_lt (lt_of_not_le hb)
      have hr2' : r ≤ (lastAnchor ((b, vb) :: (c1, c2) :: rest)).1 := by
        rw [lastAnchor_cons₂] at hr2
        exact hr2
      calc interpolateSalesAux r ((b, vb) :: (c1, c2) :: rest)
          ≤ max ((vb : ℚ) : ℝ) 0.001 := ih htailpos htailch hr1' hr2'
      _ ≤ max ((va : ℚ) : ℝ) 0.001 := max_le_max (by exact_mod_cast hab.2) (le_refl _)

lemma le_interpAux {a : ℕ} {va : ℚ} {b : ℕ} {vb : ℚ} {rest : List (ℕ × ℚ)} {r : ℕ}
    (hpos : ∀ x ∈ (a, va) :: (b, vb) :: rest, 1 ≤ x.1)
    (hch : List.Chain' tableOrd ((a, va) :: (b, vb) :: rest))
    (hr1 : a ≤ r) (hr2 : r ≤ (lastAnchor ((a, va) :: (b, vb) :: rest)).1) :
    max (((lastAnchor ((a, va) :: (b, vb) :: rest)).2 : ℚ) : ℝ) 0.001
      ≤ interpolateSalesAux r ((a, va) :: (b, vb) :: rest) := by
  induction rest generalizing a va b vb with
  | nil =>
    have hab : tableOrd (a, va) (b, vb) := (List.chain'_cons.mp hch).1
    have ha : 1 ≤ a := hpos _ (List.mem_cons_self _ _)
    rw [lastAnchor_cons₂] at hr2 ⊢
    simp only [lastAnchor, List.getLastD_cons] at hr2 ⊢
    rw [interpAux_cons, if_pos ⟨hr1, hr2⟩]
    exact piece_ge ha hab.1 (by exact_mod_cast hab.2) hr1 hr2
  | cons c rest ih =>
    obtain ⟨c1, c2⟩ := c
    have hab : tableOrd (a, va) (b, vb) := (List.chain'_cons.mp hch).1
    have ha : 1 ≤ a := hpos _ (List.mem_cons_self _ _)
    have htailch := (List.chain'_cons.mp hch).2
    rw [lastAnchor_cons₂] at hr2 ⊢
    by_cases hb : r ≤ b
    · rw [interpAux_cons, if_pos ⟨hr1, hb⟩]
      have hlastv : (lastAnchor ((b, vb) :: (c1, c2) :: rest)).2 ≤ vb :=
        (chain_head_min htailch (lastAnchor_mem _ _)).2.1
      calc max (((lastAnchor ((b, vb) :: (c1, c2) :: rest)).2 : ℚ) : ℝ) 0.001
          ≤ max ((vb : ℚ) : ℝ) 0.001 := max_le_max (by exact_mod_cast hlastv) (le_refl _)
      _ ≤ piece r a b (va : ℝ) (vb : ℝ) :=
          piece_ge ha hab.1 (by exact_mod_cast hab.2) hr1 hb
    · rw [interpAux_cons, if_neg (fun hc => hb hc.2)]
      have htailpos : ∀ x ∈ (b, vb) :: (c1, c2) :: rest, 1 ≤ x.1 :=
        fun x hx => hpos x (List.mem_cons_of_mem _ hx)
      exact ih htailpos htailch (le_of_lt (lt_of_not_le hb)) hr2

lemma interpAux_anchor {a : ℕ} {va : ℚ} {b : ℕ} {vb : ℚ} {rest : List (ℕ × ℚ)} {r : ℕ} {v : ℚ}
    (hpos : ∀ x ∈ (a, va) :: (b, vb) :: rest, 1 ≤ x.1)
    (hch : List.Chain' tableOrd ((a, va) :: (b, vb) :: rest))
    (hmem : (r, v) ∈ (a, va) :: (b, vb) :: rest) :
    interpolateSalesAux r ((a, va) :: (b, vb) :: rest) = max ((v : ℚ) : ℝ) 0.001 := by
  induction rest generalizing a va b vb with
  | nil =>
    have hab : tableOrd (a, va) (b, vb) := (List.chain'_cons.mp hch).1
    have ha : 1 ≤ a := hpos _ (List.mem_cons_self _ _)
    rcases List.mem_cons.mp hmem with h1 | h1
    · obtain ⟨hr, hv⟩ := Prod.ext_iff.mp h1
      subst hr; subst hv
      rw [interpAux_cons, if_pos ⟨le_refl _, le_of_lt hab.1⟩]
      exact piece_at_lo ha hab.1 _ _
    · rw [List.mem_singleton] at h1
      obtain ⟨hr, hv⟩ := Prod.ext_iff.mp h1
      subst hr; subst hv
      rw [interpAux_cons, if_pos ⟨le_of_lt hab.1, le_refl _⟩]
      exact piece_at_hi ha hab.1 _ _
  | cons c rest ih =>
    obtain ⟨c1, c2⟩ := c
    have hab : tableOrd (a, va) (b, vb) := (List.chain'_cons.mp hch).1
    have ha : 1 ≤ a := hpos _ (List.mem_cons_self _ _)
    have htailch := (List.chain'_cons.mp hch).2
    rcases List.mem_cons.mp hmem with h1 | h1
    · obtain ⟨hr, hv⟩ := Prod.ext_iff.mp h1
      subst hr; subst hv
      rw [interpAux_cons, if_pos ⟨le_refl _, le_of_lt hab.1⟩]
      exact piece_at_lo ha hab.1 _ _
    · obtain ⟨hble, _, heq⟩ := chain_head_min htailch h1
      rcases eq_or_lt_of_le hble with hrb | hrb
      · have h2 : (r, v) = (b, vb) := heq hrb.symm
        obtain ⟨hr, hv⟩ := Prod.ext_iff.mp h2
        subst hr; subst hv
        rw [interpAux_cons, if_pos ⟨le_of_lt hab.1, le_refl _⟩]
        exact piece_at_hi ha hab.1 _ _
      · rw [interpAux_cons, if_neg (fun hc => absurd hc.2 (not_le.mpr hrb))]
        have htailpos : ∀ x ∈ (b, vb) :: (c1, c2) :: rest, 1 ≤ x.1 :=
          fun x hx => hpos x (List.mem_cons_of_mem _ hx)
        exact ih htailpos htailch h1

lemma interpAux_anti {a : ℕ} {va : ℚ} {b : ℕ} {vb : ℚ} {rest : List (ℕ × ℚ)} {r1 r2 : ℕ}
    (hpos : ∀ x ∈ (a, va) :: (b, vb) :: rest, 1 ≤ x.1)
    (hch : List.Chain' tableOrd ((a, va) :: (b, vb) :: rest))
    (ha : a ≤ r1) (h12 : r1 ≤ r2) (hb : r2 ≤ (lastAnchor ((a, va) :: (b, vb) :: rest)).1) :
    interpolateSalesAux r2 ((a, va) :: (b, vb) :: rest)
      ≤ interpolateSalesAux r1 ((a, va) :: (b, vb) :: rest) := by
  induction rest generalizing a va b vb with
  | nil =>
    have hab : tableOrd (a, va) (b, vb) := (List.chain'_cons.mp hch).1
    have ha1 : 1 ≤ a := hpos _ (List.mem_cons_self _ _)
    rw [lastAnchor_cons₂] at hb
    simp only [lastAnchor, List.getLastD_cons] at hb
    rw [interpAux_cons r2, if_pos ⟨le_trans ha h12, hb⟩,
      interpAux_cons r1, if_pos ⟨ha, le_trans h12 hb⟩]
    exact piece_anti ha1 hab.1 (by exact_mod_cast hab.2) ha h12
  | cons c rest ih =>
    obtain ⟨c1, c2⟩ := c
    have hab : tableOrd (a, va) (b, vb) := (List.chain'_cons.mp hch).1
    have ha1 : 1 ≤ a := hpos _ (List.mem_cons_self _ _)
    have htailch := (List.chain'_cons.mp hch).2
    have htailpos : ∀ x ∈ (b, vb) :: (c1, c2) :: rest, 1 ≤ x.1 :=
      fun x hx => hpos x (List.mem_cons_of_mem _ hx)
    rw [lastAnchor_cons₂] at hb
    by_cases h2b : r2 ≤ b
    · rw [interpAux_cons r2, if_pos ⟨le_trans ha h12, h2b⟩,
        interpAux_cons r1, if_pos ⟨ha, le_trans h12 h2b⟩]
      exact piece_anti ha1 hab.1 (by exact_mod_cast hab.2) ha h12
    · rw [interpAux_cons r2, if_neg (fun hc => h2b hc.2)]
      by_cases h1b : r1 ≤ b
      · rw [interpAux_cons r1, if_pos ⟨ha, h1b⟩]
        calc interpolateSalesAux r2 ((b, vb) :: (c1, c2) :: rest)
            ≤ max ((vb : ℚ) : ℝ) 0.001 :=
              interpAux_le_head htailpos htailch (le_of_lt (lt_of_not_le h2b)) hb
        _ ≤ piece r1 a b (va : ℝ) (vb : ℝ) :=
              piece_ge ha1 hab.1 (by exact_mod_cast hab.2) ha h1b
      · rw [interpAux_cons r1, if_neg (fun hc => h1b hc.2)]
        exact ih htailpos htailch (le_of_lt (lt_of_not_le h1b)) hb

lemma chain_last_max {l : List (ℕ × ℚ)} (h : List.Chain' tableOrd l) {p : ℕ × ℚ}
    (hp : p ∈ l) : p.1 ≤ (lastAnchor l).1 ∧ (lastAnchor l).2 ≤ p.2 := by
  induction l with
  | nil => cases hp
  | cons q l ih =>
    cases l with
    | nil =>
      rw [List.mem_singleton] at hp
      subst hp
      exact ⟨le_refl _, le_refl _⟩
    | cons c l' =>
      rw [lastAnchor_cons₂]
      have hqc : tableOrd q c := (List.chain'_cons.mp h).1
      have htail := (List.chain'_cons.mp h).2
      rcases List.mem_cons.mp hp with hpq | hpc
      · subst hpq
        have hlast := chain_head_min htail (lastAnchor_mem c l')
        exact ⟨le_trans (le_of_lt hqc.1) hlast.1, le_trans hlast.2.1 hqc.2⟩
      · exact ih htail hpc

lemma extrapolate_high_ge {r k : ℕ} (hr : 1 ≤ r) (hrk : r ≤ k) {v : ℝ} (hv : 0 ≤ v) :
    v ≤ extrapolate_high_performance r k v := by
  rw [extrapolate_high_performance]
  have hrpos : (0 : ℝ) < (r : ℝ) := by exact_mod_cast hr
  have h1 : (1 : ℝ) ≤ (k : ℝ) / (r : ℝ) :=
    (one_le_div hrpos).mpr (by exact_mod_cast hrk)
  exact le_mul_of_one_le_right hv (Real.one_le_rpow h1 (by norm_num))

lemma extrapolate_high_anti {r1 r2 k : ℕ} (hr1 : 1 ≤ r1) (h12 : r1 ≤ r2) {v : ℝ}
    (hv : 0 ≤ v) :
    extrapolate_high_performance r2 k v ≤ extrapolate_high_performance r1 k v := by
  rw [extrapolate_high_performance, extrapolate_high_performance]
  have hr1pos : (0 : ℝ) < (r1 : ℝ) := by exact_mod_cast hr1
  have hknn : (0 : ℝ) ≤ (k : ℝ) := Nat.cast_nonneg k
  have hdiv : (k : ℝ) / (r2 : ℝ) ≤ (k : ℝ) / (r1 : ℝ) :=
    div_le_div_of_nonneg_left hknn hr1pos (by exact_mod_cast h12)
  have hpow := Real.rpow_le_rpow (by positivity) hdiv (by norm_num : (0:ℝ) ≤ 0.7)
  exact mul_le_mul_of_nonneg_left hpow hv

lemma extrapolate_high_pos {r k : ℕ} (hr : 1 ≤ r) (hk : 1 ≤ k) {v : ℝ} (hv : 0 < v) :
    0 < extrapolate_high_performance r k v := by
  rw [extrapolate_high_performance]
  have hrpos : (0 : ℝ) < (r : ℝ) := by exact_mod_cast hr
  have hkpos : (0 : ℝ) < (k : ℝ) := by exact_mod_cast hk
  exact mul_pos hv (Real.rpow_pos_of_pos (div_pos hkpos hrpos) _)

lemma extrapolate_low_le {r k : ℕ} (hk : 1 ≤ k) (hkr : k ≤ r) {v : ℝ} (hv : 0 ≤ v) :
    extrapolate_low_performance r k v ≤ v := by
  rw [extrapolate_low_performance]
  have hkpos : (0 : ℝ) < (k : ℝ) := by exact_mod_cast hk
  have h1 : (1 : ℝ) ≤ (r : ℝ) / (k : ℝ) :=
    (one_le_div hkpos).mpr (by exact_mod_cast hkr)
  exact div_le_self hv (Real.one_le_rpow h1 (by norm_num))

lemma extrapolate_low_anti {r1 r2 k : ℕ} (hk : 1 ≤ k) (h1 : 1 ≤ r1) (h12 : r1 ≤ r2)
    {v : ℝ} (hv : 0 ≤ v) :
    extrapolate_low_performance r2 k v ≤ extrapolate_low_performance r1 k v := by
  rw [extrapolate_low_performance, extrapolate_low_performance]
  have hkpos : (0 : ℝ) < (k : ℝ) := by exact_mod_cast hk
  have hr1pos : (0 : ℝ) < (r1 : ℝ) := by exact_mod_cast h1
  have hdiv : (r1 : ℝ) / (k : ℝ) ≤ (r2 : ℝ) / (k : ℝ) := by
    apply div_le_div_of_nonneg_right _ (le_of_lt hkpos)
    exact_mod_cast h12
  have hpow := Real.rpow_le_rpow (by positivity) hdiv (by norm_num : (0:ℝ) ≤ 0.8)
  exact div_le_div_of_nonneg_left hv (Real.rpow_pos_of_pos (div_pos hr1pos hkpos) _) hpow

lemma extrapolate_low_pos {r k : ℕ} (hr : 1 ≤ r) (hk : 1 ≤ k) {v : ℝ} (hv : 0 < v) :
    0 < extrapolate_low_performance r k v := by
  rw [extrapolate_low_performance]
  have hrpos : (0 : ℝ) < (r : ℝ) := by exact_mod_cast hr
  have hkpos : (0 : ℝ) < (k : ℝ) := by exact_mod_cast hk
  exact div_pos hv (Real.rpow_pos_of_pos (div_pos hrpos hkpos) _)

lemma interpolate_sales_cons {bsr : ℕ} (hb : 1 ≤ bsr) (a : ℕ) (va : ℚ)
    (rest : List (ℕ × ℚ)) :
    interpolate_sales bsr ((a, va) :: rest) =
      if bsr < a then extrapolate_high_performance bsr a (va : ℝ)
      else if (lastAnchor ((a, va) :: rest)).1 < bsr then
        extrapolate_low_performance bsr (lastAnchor ((a, va) :: rest)).1
          ((lastAnchor ((a, va) :: rest)).2 : ℝ)
      else interpolateSalesAux bsr ((a, va) :: rest) := by
  rw [interpolate_sales, if_neg (by omega)]
  rfl

lemma val_pos {v : ℚ} (hv : (1/1000 : ℚ) ≤ v) : (0 : ℝ) < ((v : ℚ) : ℝ) := by
  have h1 : ((1/1000 : ℚ) : ℝ) ≤ ((v : ℚ) : ℝ) := by exact_mod_cast hv
  have h2 : (0 : ℝ) < ((1/1000 : ℚ) : ℝ) := by norm_num
  linarith

lemma tableWF_shape {t : List (ℕ × ℚ)} (hwf : tableWF t) :
    ∃ a va b vb rest, t = (a, va) :: (b, vb) :: rest := by
  obtain ⟨hlen, -, -⟩ := hwf
  rcases t with _ | ⟨⟨a, va⟩, _ | ⟨⟨b, vb⟩, rest⟩⟩
  · simp at hlen
  · simp at hlen
  · exact ⟨a, va, b, vb, rest, rfl⟩

/-- Interpolation is exact at every anchor of a well-formed table. -/
lemma interpolate_sales_anchor {t : List (ℕ × ℚ)} (hwf : tableWF t) {r : ℕ} {v : ℚ}
    (hmem : (r, v) ∈ t) : interpolate_sales r t = ((v : ℚ) : ℝ) := by
  obtain ⟨a, va, b, vb, rest, rfl⟩ := tableWF_shape hwf
  obtain ⟨hlen, hvals, hch⟩ := hwf
  have hpos : ∀ x ∈ (a, va) :: (b, vb) :: rest, 1 ≤ x.1 := fun x hx => (hvals x hx).1
  have hr1 : 1 ≤ r := (hvals _ hmem).1
  have hhead := chain_head_min hch hmem
  have hlast := chain_last_max hch hmem
  rw [interpolate_sales_cons hr1, if_neg (not_lt.mpr hhead.1), if_neg (not_lt.mpr hlast.1),
    interpAux_anchor hpos hch hmem]
  exact floored_eq (hvals _ hmem).2

/-- A well-formed table yields a strictly positive estimate at every
positive rank. -/
lemma interpolate_sales_pos {t : List (ℕ × ℚ)} (hwf : tableWF t) {r : ℕ} (hr : 1 ≤ r) :
    0 < interpolate_sales r t := by
  obtain ⟨a, va, b, vb, rest, rfl⟩ := tableWF_shape hwf
  obtain ⟨hlen, hvals, hch⟩ := hwf
  have hpos : ∀ x ∈ (a, va) :: (b, vb) :: rest, 1 ≤ x.1 := fun x hx => (hvals x hx).1
  have ha1 : 1 ≤ a := hpos _ (List.mem_cons_self _ _)
  have hva : (1/1000 : ℚ) ≤ va := (hvals _ (List.mem_cons_self _ _)).2
  have hLmem := lastAnchor_mem (a, va) ((b, vb) :: rest)
  have hL1 : 1 ≤ (lastAnchor ((a, va) :: (b, vb) :: rest)).1 := hpos _ hLmem
  have hLv : (1/1000 : ℚ) ≤ (lastAnchor ((a, va) :: (b, vb) :: rest)).2 := (hvals _ hLmem).2
  rw [interpolate_sales_cons hr]
  by_cases h1 : r < a
  · rw [if_pos h1]
    exact extrapolate_high_pos hr ha1 (val_pos hva)
  · rw [if_neg h1]
    by_cases h2 : (lastAnchor ((a, va) :: (b, vb) :: rest)).1 < r
    · rw [if_pos h2]
      exact extrapolate_low_pos hr hL1 (val_pos hLv)
    · rw [if_neg h2]
      calc (0 : ℝ)
          < max (((lastAnchor ((a, va) :: (b, vb) :: rest)).2 : ℚ) : ℝ) 0.001 :=
            floored_pos _
      _ ≤ interpolateSalesAux r ((a, va) :: (b, vb) :: rest) :=
            le_interpAux hpos hch (not_lt.mp h1) (not_lt.mp h2)

/-- The daily estimate of a well-formed table is antitone on positive
ranks, across all three regions. -/
lemma interpolate_sales_anti {t : List (ℕ × ℚ)} (hwf : tableWF t) {r1 r2 : ℕ}
    (h1 : 1 ≤ r1) (h12 : r1 ≤ r2) :
    interpolate_sales r2 t ≤ interpolate_sales r1 t := by
  obtain ⟨a, va, b, vb, rest, rfl⟩ := tableWF_shape hwf
  obtain ⟨hlen, hvals, hch⟩ := hwf
  have hpos : ∀ x ∈ (a, va) :: (b, vb) :: rest, 1 ≤ x.1 := fun x hx => (hvals x hx).1
  have ha1 : 1 ≤ a := hpos _ (List.mem_cons_self _ _)
  have hva : (1/1000 : ℚ) ≤ va := (hvals _ (List.mem_cons_self _ _)).2
  have hLmem := lastAnchor_mem (a, va) ((b, vb) :: rest)
  have hL1 : 1 ≤ (lastAnchor ((a, va) :: (b, vb) :: rest)).1 := hpos _ hLmem
  have hLv : (1/1000 : ℚ) ≤ (lastAnchor ((a, va) :: (b, vb) :: rest)).2 := (hvals _ hLmem).2
  have hLva : (lastAnchor ((a, va) :: (b, vb) :: rest)).2 ≤ va :=
    (chain_last_max hch (List.mem_cons_self _ _)).2
  have hr2 : 1 ≤ r2 := le_trans h1 h12
  by_cases h2a : r2 < a
  · have h1a : r1 < a := lt_of_le_of_lt h12 h2a
    rw [interpolate_sales_cons h1, if_pos h1a, interpolate_sales_cons hr2, if_pos h2a]
    exact extrapolate_high_anti h1 h12 (le_of_lt (val_pos hva))
  · by_cases h1a : r1 < a
    · -- r1 in the high-extrapolation region, r2 at or past the first anchor
      have hge : ((va : ℚ) : ℝ) ≤ interpolate_sales r1 ((a, va) :: (b, vb) :: rest) := by
        rw [interpolate_sales_cons h1, if_pos h1a]
        exact extrapolate_high_ge h1 (le_of_lt h1a) (le_of_lt (val_pos hva))
      have hle : interpolate_sales r2 ((a, va) :: (b, vb) :: rest) ≤ ((va : ℚ) : ℝ) := by
        by_cases h2L : (lastAnchor ((a, va) :: (b, vb) :: rest)).1 < r2
        · rw [interpolate_sales_cons hr2, if_neg h2a, if_pos h2L]
          have hstep := extrapolate_low_le hL1 (le_of_lt h2L) (le_of_lt (val_pos hLv))
          have hcast : (((lastAnchor ((a, va) :: (b, vb) :: rest)).2 : ℚ) : ℝ)
              ≤ ((va : ℚ) : ℝ) := by exact_mod_cast hLva
          exact le_trans hstep hcast
        · rw [interpolate_sales_cons hr2, if_neg h2a, if_neg h2L]
          have hstep := interpAux_le_head hpos hch (not_lt.mp h2a) (not_lt.mp h2L)
          rw [floored_eq hva] at hstep
          exact hstep
      exact le_trans hle hge
    · -- both at or past the first anchor
      by_cases h2L : (lastAnchor ((a, va) :: (b, vb) :: rest)).1 < r2
      · by_cases h1L : (lastAnchor ((a, va) :: (b, vb) :: rest)).1 < r1
        · rw [interpolate_sales_cons h1, if_neg h1a, if_pos h1L,
            interpolate_sales_cons hr2, if_neg h2a, if_pos h2L]
          exact extrapolate_low_anti hL1 h1 h12 (le_of_lt (val_pos hLv))
        · have hge : (((lastAnchor ((a, va) :: (b, vb) :: rest)).2 : ℚ) : ℝ)
              ≤ interpolate_sales r1 ((a, va) :: (b, vb) :: rest) := by
            rw [interpolate_sales_cons h1, if_neg h1a, if_neg h1L]
            have hstep := le_interpAux hpos hch (not_lt.mp h1a) (not_lt.mp h1L)
            rw [floored_eq hLv] at hstep
            exact hstep
          have hle : interpolate_sales r2 ((a, va) :: (b, vb) :: rest)
              ≤ (((lastAnchor ((a, va) :: (b, vb) :: rest)).2 : ℚ) : ℝ) := by
            rw [interpolate_sales_cons hr2, if_neg h2a, if_pos h2L]
            exact extrapolate_low_le hL1 (le_of_lt h2L) (le_of_lt (val_pos hLv))
          exact le_trans hle hge
      · have h1L : ¬ (lastAnchor ((a, va) :: (b, vb) :: rest)).1 < r1 :=
          fun hc => h2L (lt_of_lt_of_le hc h12)
        rw [interpolate_sales_cons h1, if_neg h1a, if_neg h1L,
          interpolate_sales_cons hr2, if_neg h2a, if_neg h2L]
        exact interpAux_anti hpos hch (not_lt.mp h1a) h12 (not_lt.mp h2L)

lemma table_wf_of_simp {t : List (ℕ × ℚ)} (h2 : 2 ≤ t.length)
    (hv : ∀ p ∈ t, 1 ≤ p.1 ∧ (1/1000 : ℚ) ≤ p.2) (hc : List.Chain' tableOrd t) :
    tableWF t := ⟨h2, hv, hc⟩

lemma usEbook_wf : tableWF usEbook := by
  refine ⟨by norm_num [usEbook], ?_, ?_⟩
  · intro p hp
    simp only [usEbook, List.mem_cons, List.not_mem_nil, or_false] at hp
    rcases hp with h|h|h|h|h|h|h <;> subst h <;> exact ⟨by norm_num, by norm_num⟩
  · simp only [usEbook, List.chain'_cons, List.chain'_singleton, tableOrd, and_true]
    norm_num

lemma usPaperback_wf : tableWF usPaperback := by
  refine ⟨by norm_num [usPaperback], ?_, ?_⟩
  · intro p hp
    simp only [usPaperback, List.mem_cons, List.not_mem_nil, or_false] at hp
    rcases hp with h|h|h|h|h|h|h <;> subst h <;> exact ⟨by norm_num, by norm_num⟩
  · simp only [usPaperback, List.chain'_cons, List.chain'_singleton, tableOrd, and_true]
    norm_num

lemma usHardcover_wf : tableWF usHardcover := by
  refine ⟨by norm_num [usHardcover], ?_, ?_⟩
  · intro p hp
    simp only [usHardcover, List.mem_cons, List.not_mem_nil, or_false] at hp
    rcases hp with h|h|h|h|h|h|h <;> subst h <;> exact ⟨by norm_num, by norm_num⟩
  · simp only [usHardcover, List.chain'_cons, List.chain'_singleton, tableOrd, and_true]
    norm_num

lemma ukEbook_wf : tableWF ukEbook := by
  refine ⟨by norm_num [ukEbook], ?_, ?_⟩
  · intro p hp
    simp only [ukEbook, List.mem_cons, List.not_mem_nil, or_false] at hp
    rcases hp with h|h|h|h|h|h|h <;> subst h <;> exact ⟨by norm_num, by norm_num⟩
  · simp only [ukEbook, List.chain'_cons, List.chain'_singleton, tableOrd, and_true]
    norm_num

lemma ukPaperback_wf : tableWF ukPaperback := by
  refine ⟨by norm_num [ukPaperback], ?_, ?_⟩
  · intro p hp
    simp only [ukPaperback, List.mem_cons, List.not_mem_nil, or_false] at hp
    rcases hp with h|h|h|h|h|h|h <;> subst h <;> exact ⟨by norm_num, by norm_num⟩
  · simp only [ukPaperback, List.chain'_cons, List.chain'_singleton, tableOrd, and_true]
    norm_num

lemma ukHardcover_wf : tableWF ukHardcover := by
  refine ⟨by norm_num [ukHardcover], ?_, ?_⟩
  · intro p hp
    simp only [ukHardcover, List.mem_cons, List.not_mem_nil, or_false] at hp
    rcases hp with h|h|h|h|h|h|h <;> subst h <;> exact ⟨by norm_num, by norm_num⟩
  · simp only [ukHardcover, List.chain'_cons, List.chain'_singleton, tableOrd, and_true]
    norm_num

lemma lookupMarket_cases (m : String) :
    lookupMarket m = amazonComTables ∨ lookupMarket m = amazonCoUkTables := by
  rw [lookupMarket]
  rcases h : conversion_tables.find? (fun p => p.1 = m) with _ | p
  · rw [h]
    exact Or.inl rfl
  · rw [h]
    have hmem := List.mem_of_find?_eq_some h
    simp only [conversion_tables, List.mem_cons, List.not_mem_nil, or_false] at hmem
    rcases hmem with h1 | h1 <;> rw [h1]
    · exact Or.inl rfl
    · exact Or.inr rfl

lemma lookupBookTable_wf {mt : List (String × List (ℕ × ℚ))}
    (h : mt = amazonComTables ∨ mt = amazonCoUkTables) (bt : String) :
    tableWF (lookupBookTable mt bt) := by
  rcases h with h | h <;> subst h <;> rw [lookupBookTable]
  · rcases h2 : amazonComTables.find? (fun p => p.1 = bt) with _ | p
    · rw [h2]
      have he : amazonComTables.find? (fun p => p.1 = "ebook") = some ("ebook", usEbook) := by
        rw [amazonComTables]
        simp [List.find?]
      rw [he]
      exact usEbook_wf
    · rw [h2]
      have hmem := List.mem_of_find?_eq_some h2
      simp only [amazonComTables, List.mem_cons, List.not_mem_nil, or_false] at hmem
      rcases hmem with h1 | h1 | h1 <;> rw [h1]
      · exact usEbook_wf
      · exact usPaperback_wf
      · exact usHardcover_wf
  · rcases h2 : amazonCoUkTables.find? (fun p => p.1 = bt) with _ | p
    · rw [h2]
      have he : amazonCoUkTables.find? (fun p => p.1 = "ebook") = some ("ebook", ukEbook) := by
        rw [amazonCoUkTables]
        simp [List.find?]
      rw [he]
      exact ukEbook_wf
    · rw [h2]
      have hmem := List.mem_of_find?_eq_some h2
      simp only [amazonCoUkTables, List.mem_cons, List.not_mem_nil, or_false] at hmem
      rcases hmem with h1 | h1 | h1 <;> rw [h1]
      · exact ukEbook_wf
      · exact ukPaperback_wf
      · exact ukHardcover_wf

/-- Every marketplace/book-type pair resolves (through the double
fallback) to one of the six well-formed calibration tables. -/
lemma lookupTable_wf (marketplace book_type : String) :
    tableWF (lookupTable marketplace book_type) :=
  lookupBookTable_wf (lookupMarket_cases marketplace) book_type

lemma round_mono {x y : ℝ} (h : x ≤ y) : round x ≤ round y := by
  rw [round_eq, round_eq]
  exact Int.floor_mono (by linarith)

lemma round2_mono {x y : ℝ} (h : x ≤ y) : round2 x ≤ round2 y := by
  rw [round2, round2]
  have hr : round (x * 100) ≤ round (y * 100) := round_mono (by linarith)
  have : ((round (x * 100) : ℤ) : ℝ) ≤ ((round (y * 100) : ℤ) : ℝ) := by exact_mod_cast hr
  linarith

lemma round2_eq (n : ℤ) {x : ℝ} (h1 : (n : ℝ) ≤ x * 100 + 1/2) (h2 : x * 100 + 1/2 < n + 1) :
    round2 x = (n : ℝ) / 100 := by
  rw [round2, round_eq]
  rw [show ⌊x * 100 + 1/2⌋ = n from Int.floor_eq_iff.mpr ⟨h1, h2⟩]

lemma calculate_fst (bsr : ℕ) (book_type marketplace : String) :
    (calculate_sales_estimates bsr book_type marketplace).1
      = round2 (interpolate_sales bsr (lookupTable marketplace book_type)) := rfl

lemma calculate_snd (bsr : ℕ) (book_type marketplace : String) :
    (calculate_sales_estimates bsr book_type marketplace).2
      = round2 (interpolate_sales bsr (lookupTable marketplace book_type) * 30) := rfl

/-- C1: for every format and market and every pair of positive ranks
`r1 < r2`, the returned daily estimate is monotonically non-increasing:
`estimate(r1).daily >= estimate(r2).daily`, across the high-extrapolation,
log-log interpolation and low-extrapolation regions of every calibration
table the lookup can resolve. -/
theorem estimate_daily_antitone (book_type marketplace : String) (r1 r2 : ℕ)
    (h1 : 1 ≤ r1) (h12 : r1 < r2) :
    (calculate_sales_estimates r2 book_type marketplace).1
      ≤ (calculate_sales_estimates r1 book_type marketplace).1 := by
  rw [calculate_fst, calculate_fst]
  exact round2_mono
    (interpolate_sales_anti (lookupTable_wf marketplace book_type) h1 (le_of_lt h12))

/-- Witness for `estimate_daily_antitone` at ranks 5 < 7, ebook on
amazon.com. -/
theorem estimate_daily_antitone_witness :
    (calculate_sales_estimates 7 "ebook" "amazon.com").1
      ≤ (calculate_sales_estimates 5 "ebook" "amazon.com").1 :=
  estimate_daily_antitone "ebook" "amazon.com" 5 7 (by norm_num) (by norm_num)

/-- C4 counterexample: at the anchor rank 1,000,000 of the amazon.com
hardcover table the table value is 0.025, but the returned daily estimate
is its 2-decimal rounding 0.03, so `estimate(r).daily` does not equal the
table value exactly at every anchor. -/
theorem anchor_rounding_counterexample :
    (1000000, (0.025 : ℚ)) ∈ usHardcover
    ∧ (calculate_sales_estimates 1000000 "hardcover" "amazon.com").1 = 0.03
    ∧ (0.03 : ℝ) ≠ ((0.025 : ℚ) : ℝ) := by
  refine ⟨by norm_num [usHardcover], ?_, by norm_num⟩
  rw [calculate_fst]
  have hl : lookupTable "amazon.com" "hardcover" = usHardcover := rfl
  have hd : interpolate_sales 1000000 usHardcover = ((0.025 : ℚ) : ℝ) :=
    interpolate_sales_anchor usHardcover_wf (by norm_num [usHardcover])
  rw [hl, hd]
  have hc : ((0.025 : ℚ) : ℝ) = 0.025 := by norm_num
  rw [hc, round2_eq 3 (by norm_num) (by norm_num)]
  norm_num

/-- C4 (amended): the interpolation itself is exact at every anchor of
every calibration table (`_interpolate_sales(r) = table[r]` before
rounding), and the claim's example holds: `estimate(10, ebook,
amazon.com)` returns exactly (1500.0, 45000.0) after 2-decimal rounding.
The returned daily differs from the anchor value only at the three
sub-cent anchors (0.025, 0.015, 0.0075), where rounding moves it. -/
theorem interpolation_exact_at_anchors :
    (∀ mp ∈ conversion_tables, ∀ bt ∈ mp.2, ∀ p ∈ bt.2,
      interpolate_sales p.1 bt.2 = ((p.2 : ℚ) : ℝ))
    ∧ calculate_sales_estimates 10 "ebook" "amazon.com" = (1500, 45000) := by
  constructor
  · intro mp hmp bt hbt p hp
    have hwf : tableWF bt.2 := by
      simp only [conversion_tables, List.mem_cons, List.not_mem_nil, or_false] at hmp
      rcases hmp with h | h <;> subst h <;>
        simp only [amazonComTables, amazonCoUkTables, List.mem_cons, List.not_mem_nil,
          or_false] at hbt <;>
        rcases hbt with h | h | h <;> subst h
      · exact usEbook_wf
      · exact usPaperback_wf
      · exact usHardcover_wf
      · exact ukEbook_wf
      · exact ukPaperback_wf
      · exact ukHardcover_wf
    exact interpolate_sales_anchor hwf hp
  · have hl : lookupTable "amazon.com" "ebook" = usEbook := rfl
    have hd : interpolate_sales 10 usEbook = ((1500 : ℚ) : ℝ) :=
      interpolate_sales_anchor usEbook_wf (by norm_num [usEbook])
    have h1 : (calculate_sales_estimates 10 "ebook" "amazon.com").1 = 1500 := by
      rw [calculate_fst, hl, hd]
      have hc : ((1500 : ℚ) : ℝ) = 1500 := by norm_num
      rw [hc, round2_eq 150000 (by norm_num) (by norm_num)]
      norm_num
    have h2 : (calculate_sales_estimates 10 "ebook" "amazon.com").2 = 45000 := by
      rw [calculate_snd, hl, hd]
      have hc : ((1500 : ℚ) : ℝ) * 30 = 45000 := by norm_num
      rw [hc, round2_eq 4500000 (by norm_num) (by norm_num)]
      norm_num
    exact Prod.ext_iff.mpr ⟨h1, h2⟩

/-- Witness for `interpolation_exact_at_anchors` at the rank-10 anchor of
the amazon.com ebook table. -/
theorem interpolation_exact_at_anchors_witness :
    interpolate_sales 10 usEbook = ((1500 : ℚ) : ℝ) := by
  have h := interpolation_exact_at_anchors.1 ("amazon.com", amazonComTables)
    (by norm_num [conversion_tables]) ("ebook", usEbook)
    (by norm_num [amazonComTables]) (10, 1500) (by norm_num [usEbook])
  exact h

/-- C3 counterexample: at rank 1,000,000 (hardcover, amazon.com) the
unrounded daily is 0.025, so the code returns (0.03, 0.75); the returned
monthly 0.75 is not the returned daily times 30 (= 0.9): the claim fails
once rounding is applied to each component separately. -/
theorem monthly_not_returned_daily_times_30 :
    calculate_sales_estimates 1000000 "hardcover" "amazon.com" = (0.03, 0.75)
    ∧ (0.75 : ℝ) ≠ 0.03 * 30 := by
  constructor
  · have hl : lookupTable "amazon.com" "hardcover" = usHardcover := rfl
    have hd : interpolate_sales 1000000 usHardcover = ((0.025 : ℚ) : ℝ) :=
      interpolate_sales_anchor usHardcover_wf (by norm_num [usHardcover])
    have hc : ((0.025 : ℚ) : ℝ) = 0.025 := by norm_num
    have h1 : (calculate_sales_estimates 1000000 "hardcover" "amazon.com").1 = 0.03 := by
      rw [calculate_fst, hl, hd, hc, round2_eq 3 (by norm_num) (by norm_num)]
      norm_num
    have h2 : (calculate_sales_estimates 1000000 "hardcover" "amazon.com").2 = 0.75 := by
      rw [calculate_snd, hl, hd, hc]
      have hm : (0.025 : ℝ) * 30 = 0.75 := by norm_num
      rw [hm, round2_eq 75 (by norm_num) (by norm_num)]
      norm_num
    exact Prod.ext_iff.mpr ⟨h1, h2⟩
  · norm_num

/-- C3 (amended): monthly equals daily times 30 before rounding: the
returned pair is (round2 daily, round2 (daily * 30)) with the same
unrounded daily, for every call; the two returned components may differ
by rounding afterwards. -/
theorem monthly_is_thirty_times_daily_preround :
    ∀ (bsr : ℕ) (book_type marketplace : String),
      (calculate_sales_estimates bsr book_type marketplace).1
          = round2 (interpolate_sales bsr (lookupTable marketplace book_type))
      ∧ (calculate_sales_estimates bsr book_type marketplace).2
          = round2 (interpolate_sales bsr (lookupTable marketplace book_type) * 30) :=
  fun bsr bt mp => ⟨calculate_fst bsr bt mp, calculate_snd bsr bt mp⟩

lemma lookupMarket_unknown {m : String} (h1 : m ≠ "amazon.com") (h2 : m ≠ "amazon.co.uk") :
    lookupMarket m = amazonComTables := by
  rw [lookupMarket]
  have hn : conversion_tables.find? (fun p => p.1 = m) = none := by
    rw [List.find?_eq_none]
    intro a ha
    simp only [conversion_tables, List.mem_cons, List.not_mem_nil, or_false] at ha
    rcases ha with hh | hh <;> subst hh <;> simp only [decide_eq_true_eq]
    · exact Ne.symm h1
    · exact Ne.symm h2
  rw [hn]

lemma lookupBookTable_unknown {mt : List (String × List (ℕ × ℚ))}
    (hmt : mt = amazonComTables ∨ mt = amazonCoUkTables) {bt : String}
    (h1 : bt ≠ "ebook") (h2 : bt ≠ "paperback") (h3 : bt ≠ "hardcover") :
    lookupBookTable mt bt = lookupBookTable mt "ebook" := by
  rcases hmt with hm | hm <;> subst hm
  · have hn : amazonComTables.find? (fun p => p.1 = bt) = none := by
      rw [List.find?_eq_none]
      intro a ha
      simp only [amazonComTables, List.mem_cons, List.not_mem_nil, or_false] at ha
      rcases ha with hh | hh | hh <;> subst hh <;> simp only [decide_eq_true_eq]
      · exact Ne.symm h1
      · exact Ne.symm h2
      · exact Ne.symm h3
    rw [lookupBookTable, hn]
    rfl
  · have hn : amazonCoUkTables.find? (fun p => p.1 = bt) = none := by
      rw [List.find?_eq_none]
      intro a ha
      simp only [amazonCoUkTables, List.mem_cons, List.not_mem_nil, or_false] at ha
      rcases ha with hh | hh | hh <;> subst hh <;> simp only [decide_eq_true_eq]
      · exact Ne.symm h1
      · exact Ne.symm h2
      · exact Ne.symm h3
    rw [lookupBookTable, hn]
    rfl

lemma calculate_table_congr {bsr : ℕ} {b1 m1 b2 m2 : String}
    (h : lookupTable m1 b1 = lookupTable m2 b2) :
    calculate_sales_estimates bsr b1 m1 = calculate_sales_estimates bsr b2 m2 :=
  Prod.ext_iff.mpr ⟨by rw [calculate_fst, calculate_fst, h],
    by rw [calculate_snd, calculate_snd, h]⟩

/-- C7 counterexample: format "audiobook" on amazon.co.uk is an
unrecognized combination, but the estimate equals the amazon.co.uk ebook
table (450 daily at rank 10), not the default amazon.com ebook table
(1500 daily at rank 10): the fallback keeps the resolved market. -/
theorem fallback_counterexample :
    (calculate_sales_estimates 10 "audiobook" "amazon.co.uk").1 = 450
    ∧ (calculate_sales_estimates 10 "ebook" "amazon.com").1 = 1500
    ∧ (450 : ℝ) ≠ 1500 := by
  refine ⟨?_, ?_, by norm_num⟩
  · have hl : lookupTable "amazon.co.uk" "audiobook" = ukEbook := rfl
    have hd : interpolate_sales 10 ukEbook = ((450 : ℚ) : ℝ) :=
      interpolate_sales_anchor ukEbook_wf (by norm_num [ukEbook])
    rw [calculate_fst, hl, hd]
    have hc : ((450 : ℚ) : ℝ) = 450 := by norm_num
    rw [hc, round2_eq 45000 (by norm_num) (by norm_num)]
    norm_num
  · have hl : lookupTable "amazon.com" "ebook" = usEbook := rfl
    have hd : interpolate_sales 10 usEbook = ((1500 : ℚ) : ℝ) :=
      interpolate_sales_anchor usEbook_wf (by norm_num [usEbook])
    rw [calculate_fst, hl, hd]
    have hc : ((1500 : ℚ) : ℝ) = 1500 := by norm_num
    rw [hc, round2_eq 150000 (by norm_num) (by norm_num)]
    norm_num

/-- C7 (amended): an unrecognized marketplace falls back to amazon.com
for *every* format (recognized or not); an unrecognized format falls back
to the ebook table of the *resolved* marketplace; hence only the fully
unrecognized combination equals the default ebook/amazon.com estimate,
while an unknown format on a recognized marketplace keeps that
marketplace.  No input raises: the function is total. -/
theorem unknown_format_market_fallback :
    ∀ (bsr : ℕ) (book_type marketplace : String),
      (marketplace ≠ "amazon.com" → marketplace ≠ "amazon.co.uk" →
        calculate_sales_estimates bsr book_type marketplace
          = calculate_sales_estimates bsr book_type "amazon.com")
      ∧ (book_type ≠ "ebook" → book_type ≠ "paperback" → book_type ≠ "hardcover" →
        (calculate_sales_estimates bsr book_type marketplace
            = calculate_sales_estimates bsr "ebook" marketplace)
        ∧ (marketplace ≠ "amazon.com" → marketplace ≠ "amazon.co.uk" →
            calculate_sales_estimates bsr book_type marketplace
              = calculate_sales_estimates bsr "ebook" "amazon.com")) := by
  intro bsr bt m
  constructor
  · intro hm1 hm2
    have hmkt : lookupTable m bt = lookupTable "amazon.com" bt := by
      rw [lookupTable, lookupTable, lookupMarket_unknown hm1 hm2]
      rfl
    exact calculate_table_congr hmkt
  · intro h1 h2 h3
    have hbt : lookupTable m bt = lookupTable m "ebook" := by
      rw [lookupTable, lookupTable]
      exact lookupBookTable_unknown (lookupMarket_cases m) h1 h2 h3
    refine ⟨calculate_table_congr hbt, fun hm1 hm2 => ?_⟩
    have hfull : lookupTable m bt = lookupTable "amazon.com" "ebook" := by
      rw [hbt, lookupTable, lookupMarket_unknown hm1 hm2]
      rfl
    exact calculate_table_congr hfull

/-- Witness for `unknown_format_market_fallback`: the recognized format
"paperback" on the unrecognized marketplace "amazon.de" falls back to
amazon.com, and the unrecognized format "audiobook" on "amazon.de" falls
back to the default ebook/amazon.com table. -/
theorem unknown_format_market_fallback_witness :
    (calculate_sales_estimates 10 "paperback" "amazon.de"
        = calculate_sales_estimates 10 "paperback" "amazon.com")
    ∧ (calculate_sales_estimates 10 "audiobook" "amazon.de"
        = calculate_sales_estimates 10 "ebook" "amazon.com") :=
  ⟨(unknown_format_market_fallback 10 "paperback" "amazon.de").1
      (by decide) (by decide),
    ((unknown_format_market_fallback 10 "audiobook" "amazon.de").2
        (by decide) (by decide) (by decide)).2 (by decide) (by decide)⟩

lemma bsearch_bounds (est : ℕ → ℝ) (target : ℝ) :
    ∀ (n low high : ℕ), high - low ≤ n → low < high →
      low ≤ bsearch est target low high ∧ bsearch est target low high < high := by
  intro n
  induction n with
  | zero =>
    intro low high hn hlh
    exact absurd hn (by omega)
  | succ n ih =>
    intro low high hn hlh
    rw [bsearch]
    by_cases hb : high - low ≤ 1
    · rw [dif_pos hb]
      exact ⟨le_refl _, hlh⟩
    · rw [dif_neg hb]
      by_cases h2 : target < est ((low + high) / 2)
      · rw [if_pos h2]
        have hrec := ih ((low + high) / 2) high (by omega) (by omega)
        exact ⟨le_trans (by omega) hrec.1, hrec.2⟩
      · rw [if_neg h2]
        have hrec := ih low ((low + high) / 2) (by omega) (by omega)
        exact ⟨hrec.1, lt_of_lt_of_le hrec.2 (by omega)⟩

lemma bsearch_invariant (est : ℕ → ℝ) (target : ℝ) :
    ∀ (n low high : ℕ), high - low ≤ n → low < high →
      bsearch est target low high = low ∨ target < est (bsearch est target low high) := by
  intro n
  induction n with
  | zero =>
    intro low high hn hlh
    exact absurd hn (by omega)
  | succ n ih =>
    intro low high hn hlh
    rw [bsearch]
    by_cases hb : high - low ≤ 1
    · rw [dif_pos hb]
      exact Or.inl rfl
    · rw [dif_neg hb]
      by_cases h2 : target < est ((low + high) / 2)
      · rw [if_pos h2]
        rcases ih ((low + high) / 2) high (by omega) (by omega) with h | h
        · rw [h]
          exact Or.inr h2
        · exact Or.inr h
      · rw [if_neg h2]
        exact ih low ((low + high) / 2) (by omega) (by omega)

lemma bsearch_all_gt (est : ℕ → ℝ) (target : ℝ)
    (hgt : ∀ r : ℕ, 1000000 ≤ r → r < 10000000 → target < est r) :
    ∀ (n low : ℕ), 10000000 - low ≤ n → 1 ≤ low → low < 10000000 →
      bsearch est target low 10000000 = 9999999 := by
  intro n
  induction n with
  | zero =>
    intro low hn h1 h2
    exact absurd hn (by omega)
  | succ n ih =>
    intro low hn h1 h2
    rw [bsearch]
    by_cases hb : 10000000 - low ≤ 1
    · rw [dif_pos hb]
      omega
    · rw [dif_neg hb]
      have hmid1 : 1000000 ≤ (low + 10000000) / 2 := by omega
      have hmid2 : (low + 10000000) / 2 < 10000000 := by omega
      rw [if_pos (hgt _ hmid1 hmid2)]
      exact ih _ (by omega) (by omega) hmid2

/-- out-of-range probe for the inverse query: with target 0 every probed
estimate is positive, so the loop always raises `low` and returns
9,999,999. -/
lemma get_bsr_zero_ebook_us : get_bsr_for_target_sales 0 "ebook" "amazon.com" = 9999999 := by
  rw [get_bsr_for_target_sales]
  have hl : lookupTable "amazon.com" "ebook" = usEbook := rfl
  rw [hl]
  apply bsearch_all_gt _ _ ?_ 10000000 1 (by norm_num) (by norm_num) (by norm_num)
  intro r hr1 _
  exact interpolate_sales_pos usEbook_wf (by omega)

/-- C2 counterexample: at target 0 (below the entire achievable range)
the inverse query returns 9,999,999 — not a boundary of
`[1, 10_000_000]`, and not a rank whose estimate is at most the target
(its estimate is positive): the claimed "smallest rank whose estimate
does not exceed s, or the boundary" is not what the code returns. -/
theorem target_rank_counterexample :
    get_bsr_for_target_sales 0 "ebook" "amazon.com" = 9999999
    ∧ 0 < interpolate_sales 9999999 usEbook
    ∧ (9999999 : ℕ) ≠ 1 ∧ (9999999 : ℕ) ≠ 10000000 :=
  ⟨get_bsr_zero_ebook_us, interpolate_sales_pos usEbook_wf (by norm_num),
    by norm_num, by norm_num⟩

/-- C2 (amended): the bisection always terminates with an integer rank in
`[1, 9_999_999]` (never the upper boundary 10_000_000); the returned rank
is 1 or still has estimate strictly above the target (it is the `low` end
of the final width-1 interval, one below the smallest rank whose estimate
does not exceed the target when that rank exceeds 1); for a target below
the whole achievable range (e.g. 0) it returns exactly 9_999_999. -/
theorem target_rank_properties :
    (∀ (target : ℝ) (book_type marketplace : String),
      1 ≤ get_bsr_for_target_sales target book_type marketplace
      ∧ get_bsr_for_target_sales target book_type marketplace ≤ 9999999)
    ∧ (∀ (target : ℝ) (book_type marketplace : String),
      get_bsr_for_target_sales target book_type marketplace = 1
      ∨ target < interpolate_sales (get_bsr_for_target_sales target book_type marketplace)
          (lookupTable marketplace book_type))
    ∧ get_bsr_for_target_sales 0 "ebook" "amazon.com" = 9999999 := by
  refine ⟨fun target bt m => ?_, fun target bt m => ?_, get_bsr_zero_ebook_us⟩
  · rw [get_bsr_for_target_sales]
    have h := bsearch_bounds (fun mid => interpolate_sales mid (lookupTable m bt))
      target 10000000 1 10000000 (by norm_num) (by norm_num)
    exact ⟨h.1, by omega⟩
  · exact bsearch_invariant (fun mid => interpolate_sales mid (lookupTable m bt))
      target 10000000 1 10000000 (by norm_num) (by norm_num)

lemma salesData_length (h : List BsrRecord) : (salesData h).length = h.length := by
  rw [salesData, List.length_map, sortedHistory, List.length_insertionSort]

lemma round2_nonneg {x : ℝ} (hx : 0 ≤ x) : 0 ≤ round2 x := by
  have h0 : round2 0 = 0 := by
    rw [round2]
    norm_num
  rw [← h0]
  exact round2_mono hx

/-- C6 (amended): with exactly two history entries the classification is
a direct comparison of the newest estimated daily sales against the
oldest — `improving` / `declining` / `stable` by strict inequality, with
no ±10% threshold — and `change_percent` is reported as 0. -/
theorem trend_two_point (h : List BsrRecord) (hlen : h.length = 2) :
    ((get_sales_trend_analysis h).trend
        = if (salesData h).headD 0 < (salesData h).getLastD 0 then "improving"
          else if (salesData h).getLastD 0 < (salesData h).headD 0 then "declining"
          else "stable")
    ∧ (get_sales_trend_analysis h).change_percent = 0 := by
  have hsd : (salesData h).length = 2 := by rw [salesData_length, hlen]
  rw [get_sales_trend_analysis, if_neg (by omega)]
  constructor
  · show trend_label (salesData h) = _
    rw [trend_label, if_neg (by omega)]
  · show trend_change_percent (salesData h) = 0
    rw [trend_change_percent, if_neg (by omega)]

/-- Witness for `trend_two_point` on the concrete two-entry history. -/
theorem trend_two_point_witness :
    ((get_sales_trend_analysis exampleTwoPointHistory).trend
        = if (salesData exampleTwoPointHistory).headD 0
              < (salesData exampleTwoPointHistory).getLastD 0 then "improving"
          else if (salesData exampleTwoPointHistory).getLastD 0
              < (salesData exampleTwoPointHistory).headD 0 then "declining"
          else "stable")
    ∧ (get_sales_trend_analysis exampleTwoPointHistory).change_percent = 0 :=
  trend_two_point exampleTwoPointHistory (by decide)

/-- C6 counterexample: a two-entry history with daily estimates 0.5 then
0.45 — a relative change of exactly -10%, which the claimed ±10% rule
classifies as `stable` — is classified `declining` by the code, which
compares the two values directly. -/
theorem trend_two_point_counterexample :
    (calculate_sales_estimates 100000 "paperback" "amazon.com").1 = 0.5
    ∧ (calculate_sales_estimates 10000 "hardcover" "amazon.co.uk").1 = 0.45
    ∧ (get_sales_trend_analysis exampleTwoPointHistory).trend = "declining"
    ∧ ¬ (((0.45 : ℝ) - 0.5) / 0.5 * 100 < -10) := by
  have hd1 : (calculate_sales_estimates 100000 "paperback" "amazon.com").1 = 0.5 := by
    have hl : lookupTable "amazon.com" "paperback" = usPaperback := rfl
    have hd : interpolate_sales 100000 usPaperback = ((0.5 : ℚ) : ℝ) :=
      interpolate_sales_anchor usPaperback_wf (by norm_num [usPaperback])
    rw [calculate_fst, hl, hd]
    have hc : ((0.5 : ℚ) : ℝ) = 0.5 := by norm_num
    rw [hc, round2_eq 50 (by norm_num) (by norm_num)]
    norm_num
  have hd2 : (calculate_sales_estimates 10000 "hardcover" "amazon.co.uk").1 = 0.45 := by
    have hl : lookupTable "amazon.co.uk" "hardcover" = ukHardcover := rfl
    have hd : interpolate_sales 10000 ukHardcover = ((0.45 : ℚ) : ℝ) :=
      interpolate_sales_anchor ukHardcover_wf (by norm_num [ukHardcover])
    rw [calculate_fst, hl, hd]
    have hc : ((0.45 : ℚ) : ℝ) = 0.45 := by norm_num
    rw [hc, round2_eq 45 (by norm_num) (by norm_num)]
    norm_num
  have hsort : sortedHistory exampleTwoPointHistory = exampleTwoPointHistory := rfl
  have hsd : salesData exampleTwoPointHistory = [0.5, 0.45] := by
    rw [salesData, hsort, exampleTwoPointHistory]
    simp only [List.map_cons, List.map_nil]
    rw [hd1, hd2]
  refine ⟨hd1, hd2, ?_, by norm_num⟩
  rw [get_sales_trend_analysis, if_neg (by decide)]
  show trend_label (salesData exampleTwoPointHistory) = "declining"
  rw [hsd, trend_label, if_neg (by norm_num)]
  simp only [List.headD, List.getLastD]
  rw [if_neg (by norm_num), if_pos (by norm_num)]

lemma log10_pow10 (n : ℕ) : log10 ((10 : ℝ) ^ (n : ℕ)) = (n : ℝ) := by
  rw [log10, ← Real.rpow_natCast 10 n, Real.logb_rpow (by norm_num) (by norm_num)]

lemma e50_piece :
    interpolate_sales 50000 usEbook
      = piece 50000 10000 100000 ((8 : ℚ) : ℝ) ((1 : ℚ) : ℝ) := by
  rw [usEbook, interpolate_sales_cons (by norm_num), if_neg (by norm_num)]
  have hla : lastAnchor ((1, 5000) :: (10, 1500) :: (100, 300) :: (1000, 50) :: (10000, 8)
      :: (100000, 1) :: (1000000, 0.1) :: ([] : List (ℕ × ℚ))) = (1000000, 0.1) := rfl
  rw [hla, if_neg (by norm_num)]
  rw [interpAux_cons 50000, if_neg (by norm_num)]
  rw [interpAux_cons 50000, if_neg (by norm_num)]
  rw [interpAux_cons 50000, if_neg (by norm_num)]
  rw [interpAux_cons 50000, if_neg (by norm_num)]
  rw [interpAux_cons 50000, if_pos (by norm_num)]

lemma e50_ge_one : (1 : ℝ) ≤ interpolate_sales 50000 usEbook := by
  rw [e50_piece]
  have h := piece_ge (by norm_num : (1 : ℕ) ≤ 10000) (by norm_num : (10000 : ℕ) < 100000)
    (by norm_num : ((1 : ℚ) : ℝ) ≤ ((8 : ℚ) : ℝ)) (by norm_num : (10000 : ℕ) ≤ 50000)
    (by norm_num : (50000 : ℕ) ≤ 100000)
  have hm : max ((1 : ℚ) : ℝ) 0.001 = 1 := by
    rw [max_eq_left (by norm_num)]
    norm_num
  rw [hm] at h
  exact h

lemma piece50_lt_two : piece 50000 10000 100000 ((8 : ℚ) : ℝ) ((1 : ℚ) : ℝ) < 2 := by
  rw [piece]
  have h1 : max ((8 : ℚ) : ℝ) 0.001 = 8 := by
    rw [max_eq_left (by norm_num)]
    norm_num
  have h2 : max ((1 : ℚ) : ℝ) 0.001 = 1 := by
    rw [max_eq_left (by norm_num)]
    norm_num
  have h50000 : ((50000 : ℕ) : ℝ) = (50000 : ℝ) := by norm_num
  have h10000 : log10 ((10000 : ℕ) : ℝ) = 4 := by
    have he : ((10000 : ℕ) : ℝ) = (10 : ℝ) ^ (4 : ℕ) := by norm_num
    rw [he, log10_pow10]
    norm_num
  have h100000 : log10 ((100000 : ℕ) : ℝ) = 5 := by
    have he : ((100000 : ℕ) : ℝ) = (10 : ℝ) ^ (5 : ℕ) := by norm_num
    rw [he, log10_pow10]
    norm_num
  have hlog1 : log10 (1 : ℝ) = 0 := by
    rw [log10]
    exact Real.logb_one
  rw [h1, h2, h50000, h10000, h100000, hlog1]
  have key : log10 (8 : ℝ) + (log10 (50000 : ℝ) - 4) / (5 - 4) * (0 - log10 (8 : ℝ))
      = (5 - log10 (50000 : ℝ)) * log10 (8 : ℝ) := by ring
  rw [key]
  have hA : 5 - log10 (50000 : ℝ) = log10 (2 : ℝ) := by
    have hd : log10 ((100000 : ℝ) / 50000) = log10 (100000 : ℝ) - log10 (50000 : ℝ) := by
      rw [log10, log10, log10]
      exact Real.logb_div (by norm_num) (by norm_num)
    have h5 : log10 (100000 : ℝ) = 5 := by
      have he : (100000 : ℝ) = (10 : ℝ) ^ (5 : ℕ) := by norm_num
      rw [he, log10_pow10]
      norm_num
    have hq : (100000 : ℝ) / 50000 = 2 := by norm_num
    rw [hq] at hd
    linarith
  rw [hA]
  have h8lt : log10 (8 : ℝ) < 1 := by
    have hlt := Real.logb_lt_logb one_lt_ten (by norm_num : (0:ℝ) < 8)
      (by norm_num : (8:ℝ) < 10)
    rw [Real.logb_self_eq_one one_lt_ten] at hlt
    rw [log10]
    exact hlt
  have h2pos : (0 : ℝ) < log10 (2 : ℝ) := by
    rw [log10]
    exact Real.logb_pos one_lt_ten (by norm_num)
  have hE : log10 (2 : ℝ) * log10 (8 : ℝ) < log10 (2 : ℝ) := by
    have hm := mul_lt_mul_of_pos_left h8lt h2pos
    rw [mul_one] at hm
    exact hm
  have hfin := (Real.rpow_lt_rpow_left_iff one_lt_ten).mpr hE
  have h2eq : (10 : ℝ) ^ log10 (2 : ℝ) = 2 := rpow_log10 (by norm_num)
  rw [h2eq] at hfin
  exact hfin

/-- On the spec's example history (ranks 50000, 30000, 10000 at
increasing timestamps on the amazon.com ebook table) the code's
classification is "improving". -/
lemma trend_example_improving :
    (get_sales_trend_analysis exampleRisingHistory).trend = "improving" := by
  have hl : lookupTable "amazon.com" "ebook" = usEbook := rfl
  have he8 : interpolate_sales 10000 usEbook = ((8 : ℚ) : ℝ) :=
    interpolate_sales_anchor usEbook_wf (by norm_num [usEbook])
  have hd8 : (calculate_sales_estimates 10000 "ebook" "amazon.com").1 = 8 := by
    rw [calculate_fst, hl, he8]
    have hc : ((8 : ℚ) : ℝ) = 8 := by norm_num
    rw [hc, round2_eq 800 (by norm_num) (by norm_num)]
    norm_num
  have he50hi : interpolate_sales 50000 usEbook < 2 := by
    rw [e50_piece]
    exact piece50_lt_two
  have hd50eq : (calculate_sales_estimates 50000 "ebook" "amazon.com").1
      = round2 (interpolate_sales 50000 usEbook) := by
    rw [calculate_fst, hl]
  have hr1 : round2 (1 : ℝ) = 1 := by
    rw [round2_eq 100 (by norm_num) (by norm_num)]
    norm_num
  have hr2 : round2 (2 : ℝ) = 2 := by
    rw [round2_eq 200 (by norm_num) (by norm_num)]
    norm_num
  have hd50lo : (1 : ℝ) ≤ (calculate_sales_estimates 50000 "ebook" "amazon.com").1 := by
    rw [hd50eq, ← hr1]
    exact round2_mono e50_ge_one
  have hd50hi : (calculate_sales_estimates 50000 "ebook" "amazon.com").1 ≤ 2 := by
    rw [hd50eq, ← hr2]
    exact round2_mono (le_of_lt he50hi)
  have hd30 : 0 ≤ (calculate_sales_estimates 30000 "ebook" "amazon.com").1 := by
    rw [calculate_fst, hl]
    exact round2_nonneg (le_of_lt (interpolate_sales_pos usEbook_wf (by norm_num)))
  have hsort : sortedHistory exampleRisingHistory = exampleRisingHistory := rfl
  have hsd : salesData exampleRisingHistory
      = [(calculate_sales_estimates 50000 "ebook" "amazon.com").1,
          (calculate_sales_estimates 30000 "ebook" "amazon.com").1, 8] := by
    rw [salesData, hsort, exampleRisingHistory]
    simp only [List.map_cons, List.map_nil]
    rw [hd8]
  rw [get_sales_trend_analysis, if_neg (by decide)]
  show trend_label (salesData exampleRisingHistory) = "improving"
  rw [hsd]
  have hd50pos : (0 : ℝ) < (calculate_sales_estimates 50000 "ebook" "amazon.com").1 :=
    lt_of_lt_of_le one_pos hd50lo
  have hold : trend_older_avg [(calculate_sales_estimates 50000 "ebook" "amazon.com").1,
      (calculate_sales_estimates 30000 "ebook" "amazon.com").1, (8 : ℝ)]
      = (calculate_sales_estimates 50000 "ebook" "amazon.com").1 := by
    rw [trend_older_avg, if_neg (by norm_num)]
    rfl
  have hrec : trend_recent_avg [(calculate_sales_estimates 50000 "ebook" "amazon.com").1,
      (calculate_sales_estimates 30000 "ebook" "amazon.com").1, (8 : ℝ)]
      = ((calculate_sales_estimates 50000 "ebook" "amazon.com").1
          + ((calculate_sales_estimates 30000 "ebook" "amazon.com").1 + (8 + 0))) / 3 := by
    rw [trend_recent_avg]
    norm_num
  have hcp : trend_change_percent [(calculate_sales_estimates 50000 "ebook" "amazon.com").1,
      (calculate_sales_estimates 30000 "ebook" "amazon.com").1, (8 : ℝ)]
      = (trend_recent_avg [(calculate_sales_estimates 50000 "ebook" "amazon.com").1,
          (calculate_sales_estimates 30000 "ebook" "amazon.com").1, (8 : ℝ)]
          - (calculate_sales_estimates 50000 "ebook" "amazon.com").1)
        / (calculate_sales_estimates 50000 "ebook" "amazon.com").1 * 100 := by
    rw [trend_change_percent, if_pos (by norm_num), hold, if_pos hd50pos]
  have h10 : 10 < trend_change_percent
      [(calculate_sales_estimates 50000 "ebook" "amazon.com").1,
        (calculate_sales_estimates 30000 "ebook" "amazon.com").1, (8 : ℝ)] := by
    rw [hcp, hrec, div_mul_eq_mul_div, lt_div_iff₀ hd50pos]
    linarith
  rw [trend_label, if_pos (by norm_num), if_pos h10]

/-- C5 counterexample: the spec's example history is classified with the
label "improving" — the string the code produces — not "rising" as the
claim states. -/
theorem trend_label_counterexample :
    (get_sales_trend_analysis exampleRisingHistory).trend = "improving"
    ∧ ("improving" : String) ≠ "rising" :=
  ⟨trend_example_improving, by decide⟩

/-- C5 (amended): with at least 3 history entries the classification
compares the mean of the last 3 estimated daily-sales values against the
mean of all prior points (the single first point when exactly 3), labels
"improving" (not "rising") above +10%, "declining" below -10%, "stable"
otherwise (also when the older mean is nonpositive); the example history
[50000, 30000, 10000] at increasing timestamps classifies "improving". -/
theorem trend_three_point :
    (∀ h : List BsrRecord, 3 ≤ h.length →
      (get_sales_trend_analysis h).trend
        = (if 0 < trend_older_avg (salesData h) then
            (if 10 < (trend_recent_avg (salesData h) - trend_older_avg (salesData h))
                / trend_older_avg (salesData h) * 100 then "improving"
              else if (trend_recent_avg (salesData h) - trend_older_avg (salesData h))
                / trend_older_avg (salesData h) * 100 < -10 then "declining"
              else "stable")
          else "stable"))
    ∧ (get_sales_trend_analysis exampleRisingHistory).trend = "improving" := by
  refine ⟨fun h hlen3 => ?_, trend_example_improving⟩
  have hsd3 : 3 ≤ (salesData h).length := by
    rw [salesData_length]
    exact hlen3
  rw [get_sales_trend_analysis, if_neg (by omega)]
  show trend_label (salesData h) = _
  rw [trend_label, if_pos hsd3, trend_change_percent, if_pos hsd3]
  by_cases hold : 0 < trend_older_avg (salesData h)
  · rw [if_pos hold, if_pos hold]
  · rw [if_neg hold, if_neg hold, if_neg (by norm_num), if_neg (by norm_num)]

/-- Witness for `trend_three_point` on the example history. -/
theorem trend_three_point_witness :
    (get_sales_trend_analysis exampleRisingHistory).trend
      = (if 0 < trend_older_avg (salesData exampleRisingHistory) then
          (if 10 < (trend_recent_avg (salesData exampleRisingHistory)
                - trend_older_avg (salesData exampleRisingHistory))
              / trend_older_avg (salesData exampleRisingHistory) * 100 then "improving"
            else if (trend_recent_avg (salesData exampleRisingHistory)
                - trend_older_avg (salesData exampleRisingHistory))
              / trend_older_avg (salesData exampleRisingHistory) * 100 < -10 then "declining"
            else "stable")
        else "stable") :=
  trend_three_point.1 exampleRisingHistory (by decide)

end KdpAuditor
